import Mathlib

/-!
Verification development for the ld2l/OpenDota match-data synchronizer
(`dota_data.py`).  The definitions below are a shallow embedding of the
source: Python dicts become insertion-ordered association lists, file
contents become structured values, `int()`/`str()` become explicit
decimal parse/print functions, and the network becomes an oracle
(`World`) whose `none` results stand for a raised exception during a
fetch (or a parse failure of the fetched content).  Durable writes are
modelled as explicit effects so that the placement of writes in the
control flow is visible in the embedding.
-/

set_option linter.unusedVariables false

namespace Dota

/-! ### Option-valued traversal (Python comprehensions that may raise) -/

/-- Traverse a list with a fallible function; `none` models a raised
exception inside a Python comprehension such as
`set(int(x) for x in ...)`. -/
def omap (f : α → Option β) : List α → Option (List β)
  | [] => some []
  | a :: l =>
    match f a, omap f l with
    | some b, some bs => some (b :: bs)
    | _, _ => none

/-! ### Python dict and JSON object semantics -/

/-- One step of Python dict construction (`d[k] = v`) on an
insertion-ordered association list: an existing key keeps its position
and gets the new value, a fresh key is appended. -/
def insertEntry (d : List (String × Int)) (k : String) (v : Int) :
    List (String × Int) :=
  if k ∈ d.map Prod.fst then d.map (fun p => if p.1 = k then (k, v) else p)
  else d ++ [(k, v)]

/-- `json.load` reads the entries of a JSON object in order into a
Python dict: first occurrence of a key keeps its position, a later
duplicate overwrites the value. -/
def pyDictOfList (l : List (String × Int)) : List (String × Int) :=
  l.foldl (fun d p => insertEntry d p.1 p.2) []

/-! ### Decimal printing and parsing (`str` / `int`, JSON key coercion) -/

/-- The decimal digit characters. -/
def digitChar : Nat → Char
  | 0 => '0' | 1 => '1' | 2 => '2' | 3 => '3' | 4 => '4'
  | 5 => '5' | 6 => '6' | 7 => '7' | 8 => '8' | _ => '9'

/-- Numeric value of a decimal digit character, `none` otherwise. -/
def digitVal (c : Char) : Option Nat :=
  if 48 ≤ c.toNat ∧ c.toNat ≤ 57 then some (c.toNat - 48) else none

/-- Fuelled big-endian decimal digits of a natural number; the fuel is
only there to make the recursion structural and is irrelevant once it
exceeds the argument (`natDigitsF_stable`). -/
def natDigitsF : Nat → Nat → List Char
  | 0, _ => []
  | f + 1, n =>
    if n < 10 then [digitChar n] else natDigitsF f (n / 10) ++ [digitChar (n % 10)]

/-- Big-endian decimal digits of a natural number. -/
def natDigits (n : Nat) : List Char := natDigitsF (n + 1) n

/-- Python `str` on an int (also how `json.dump` coerces int dict keys
to JSON object keys): minus sign for negatives, decimal digits. -/
def intToString (n : Int) : String :=
  if n < 0 then String.mk ('-' :: natDigits n.natAbs) else String.mk (natDigits n.toNat)

/-- Left-to-right accumulation of decimal digits; `none` on the first
non-digit character. -/
def parseAcc : Nat → List Char → Option Nat
  | a, [] => some a
  | a, c :: cs =>
    match digitVal c with
    | some d => parseAcc (a * 10 + d) cs
    | none => none

/-- Parse a non-empty all-digit string. -/
def parseDigits : List Char → Option Nat
  | [] => none
  | c :: cs => parseAcc 0 (c :: cs)

/-- Python `int()` on a string (restricted to an optional minus sign
followed by decimal digits, the only forms this pipeline produces);
`none` models the raised `ValueError`. -/
def pyInt (s : String) : Option Int :=
  match s.data with
  | [] => none
  | c :: cs =>
    if c = '-' then (parseDigits cs).map (fun n => -(n : Int))
    else (parseDigits (c :: cs)).map (fun n => (n : Int))

/-! ### Match records and the stats extractor (`desired_fields`) -/

/-- One entry of the `players` array of an OpenDota match object. -/
structure Player where
  player_slot : Nat
  kills : Int
  deaths : Int
  assists : Int
  gold_per_min : Int
  xp_per_min : Int
deriving DecidableEq, Repr

/-- The fields of an OpenDota match object that `desired_fields`
reads. -/
structure MatchRec where
  match_id : Int
  radiant_team_id : Int
  dire_team_id : Int
  players : List Player
deriving DecidableEq, Repr

/-- Per-team stat sums, in the order the source accumulates them:
kills, deaths, assists, gold per minute, experience per minute. -/
structure Stats where
  kills : Int
  deaths : Int
  assists : Int
  gpm : Int
  xpm : Int
deriving DecidableEq, Repr

def Stats.zero : Stats := ⟨0, 0, 0, 0, 0⟩

/-- Add one player's five stats to a running team sum (the inner loop
of `desired_fields`). -/
def Stats.addPlayer (s : Stats) (p : Player) : Stats :=
  ⟨s.kills + p.kills, s.deaths + p.deaths, s.assists + p.assists,
   s.gpm + p.gold_per_min, s.xpm + p.xp_per_min⟩

/-- The 13-field match summary tuple produced by `desired_fields`:
`(match_id, radiant_team_id, radiant sums, dire_team_id, dire sums)`. -/
structure Row where
  match_id : Int
  radiant_team_id : Int
  radiant : Stats
  dire_team_id : Int
  dire : Stats
deriving DecidableEq, Repr

/-- The loop of `desired_fields`: `team = p["player_slot"] // 128`
selects `sums[team]`; a quotient of 2 or more is an `IndexError` in the
source, modelled as `none`. -/
def sumTeamsAux : List Player → Stats × Stats → Option (Stats × Stats)
  | [], acc => some acc
  | p :: ps, acc =>
    match p.player_slot / 128 with
    | 0 => sumTeamsAux ps (acc.1.addPlayer p, acc.2)
    | 1 => sumTeamsAux ps (acc.1, acc.2.addPlayer p)
    | _ => none

/-- `desired_fields` from `dota_data.py`: reduce a match object to the
summary tuple. -/
def desired_fields (m : MatchRec) : Option Row :=
  (sumTeamsAux m.players (Stats.zero, Stats.zero)).map fun rd =>
    ⟨m.match_id, m.radiant_team_id, rd.1, m.dire_team_id, rd.2⟩

/-- Specification-side team sum: fold the five stats over a list of
players (used to state the slot-partition property). -/
def teamSum (ps : List Player) : Stats := ps.foldl Stats.addPlayer Stats.zero

/-- The order in which a summary tuple is written to the CSV file
(`csv.writer` stringifies each component). -/
def statsToStrings (s : Stats) : List String :=
  [intToString s.kills, intToString s.deaths, intToString s.assists,
   intToString s.gpm, intToString s.xpm]

def rowToStrings (r : Row) : List String :=
  intToString r.match_id :: intToString r.radiant_team_id ::
    (statsToStrings r.radiant ++ intToString r.dire_team_id :: statsToStrings r.dire)

/-- The header row written at line 159-164 of `dota_data.py`. -/
def headerRow : List String :=
  ["match_id", "radiant_team_id", "r_kills", "r_deaths", "r_assists", "r_xpm", "r_gpm",
   "dire_team_id", "d_kills", "d_deaths", "d_assists", "d_xpm", "d_gpm"]

/-! ### Durable state, the network oracle, and effects -/

/-- Content of the pairing-cache JSON file: the entries of the JSON
object in order. -/
abbrev JsonObj := List (String × Int)

/-- Content of the CSV file: all rows (header included) as lists of
field strings. -/
abbrev CsvFile := List (List String)

/-- The durable state of one season: the pairing cache file and the CSV
table file, each possibly absent. -/
structure FS where
  cacheFile : Option JsonObj
  csvFile : Option CsvFile
deriving DecidableEq, Repr

/-- The external world of one run: the scraped set of completed ld2l
match ids (`none` = the list-page fetch or its scrape raised), the
ld2l-detail-page mapper (`none` = that fetch or its parse raised), and
the OpenDota stats source (`none` = that fetch or its JSON decode
raised). -/
structure World where
  listPage : Option (List Int)
  detailPage : Int → Option Int
  statsPage : Int → Option MatchRec

/-- Why a run terminated abnormally. -/
inductive RunError
  | fetchError
  | parseError
  | assertError
deriving DecidableEq, Repr

/-- A durable write performed by the run. -/
inductive Effect
  | writeCache (obj : JsonObj)
  | writeCsv (rows : CsvFile)
deriving DecidableEq, Repr

def applyEffect (fs : FS) : Effect → FS
  | .writeCache obj => { fs with cacheFile := some obj }
  | .writeCsv rows => { fs with csvFile := some rows }

def applyEffects (fs : FS) (effs : List Effect) : FS := effs.foldl applyEffect fs

/-! ### The reconciliation engine (`update_data_for_season`) -/

/-- In-memory state after the load phase (lines 107-122 of
`dota_data.py`): the loaded pairing dict, the int-parsed cached ld2l
ids, the data rows after skipping the header, and the int-parsed first
field of each row. -/
structure Loaded where
  cacheEntries : JsonObj
  cachedIds : List Int
  rows : List (List String)
  knownIds : List Int
deriving DecidableEq, Repr

/-- First field of a CSV row parsed as an int (`int(row[0])`); `none`
models the raised exception on a missing or non-numeric field. -/
def rowKeyInt (r : List String) : Option Int := r.head?.bind pyInt

/-- The data rows seen by `csv.reader` after skipping the header line
(empty when the file is absent, lines 117-121). -/
def csvRowsOf (fs : FS) : List (List String) :=
  match fs.csvFile with
  | none => []
  | some rs => rs.drop 1

/-- The load phase: read the pairing cache (empty dict if the file is
absent), int-parse its keys, read the CSV rows skipping the header
(empty list if the file is absent), and int-parse each row's first
field. -/
def loadState (fs : FS) : Option Loaded :=
  match omap (fun p => pyInt p.1) (pyDictOfList (fs.cacheFile.getD [])) with
  | none => none
  | some cachedIds =>
    match omap rowKeyInt (csvRowsOf fs) with
    | none => none
    | some knownIds =>
      some ⟨pyDictOfList (fs.cacheFile.getD []), cachedIds, csvRowsOf fs, knownIds⟩

/-- `cached_but_no_data`: cached OpenDota ids with no table row, the
sentinel 0 discarded (lines 125-126).  The source iterates this Python
set in an unspecified order; the model fixes the `dedup` order. -/
def backfillIds (st : Loaded) : List Int :=
  (st.cacheEntries.map Prod.snd).dedup.filter
    (fun v => !decide (v ∈ st.knownIds) && !decide (v = 0))

/-- One OpenDota pull plus extraction:
`desired_fields(od_puller.pull(f"matches/{id}").json())`. -/
def fetchRow (w : World) (id : Int) : Except RunError Row :=
  match w.statsPage id with
  | none => .error .fetchError
  | some m =>
    match desired_fields m with
    | none => .error .parseError
    | some r => .ok r

/-- The backfill loop (lines 127-130): fetch a row for every cached id
missing from the table. -/
def backfill (w : World) : List Int → Except RunError (List Row)
  | [] => .ok []
  | id :: rest =>
    match fetchRow w id with
    | .error e => .error e
    | .ok r =>
      match backfill w rest with
      | .error e => .error e
      | .ok rs => .ok (r :: rs)

/-- The guarded stats fetch inside the new-match loop (lines 150-151):
only a non-zero OpenDota id that is not already in the table is fetched
and extracted; otherwise no row is appended. -/
def fetchNewRows (w : World) (knownIds : List Int) (od : Int) :
    Except RunError (List Row) :=
  if od ≠ 0 ∧ od ∉ knownIds then (fetchRow w od).map (fun r => [r]) else .ok []

/-- The new-match loop (lines 144-151): for each new ld2l id, resolve
the OpenDota id via the detail page and record the pairing; if that id
is non-zero and not already in the table (`known_data_ids` is the set
computed at load time, never updated by the loop), fetch and extract a
new row.  Returns the recorded pairings (in insertion order) and the
appended rows (in append order). -/
def processNew (w : World) (knownIds : List Int) :
    List Int → Except RunError (List (Int × Int) × List Row)
  | [] => .ok ([], [])
  | i :: rest =>
    match w.detailPage i with
    | none => .error .fetchError
    | some od =>
      match fetchNewRows w knownIds od with
      | .error e => .error e
      | .ok nr =>
        match processNew w knownIds rest with
        | .error e => .error e
        | .ok (ps, rs) => .ok ((i, od) :: ps, nr ++ rs)

/-- Lines 125-157 of `update_data_for_season`, after the load phase:
backfill, scrape the season list page, check the append-only assertion
(line 139), process the new matches, and produce the merged cache
object (string-keyed old entries followed by the int-keyed new pairings
as `json.dump` stringifies them) and the full CSV content. -/
def runCore (w : World) (st : Loaded) : Except RunError (JsonObj × CsvFile) :=
  match backfill w (backfillIds st) with
  | .error e => .error e
  | .ok backRows =>
    match w.listPage with
    | none => .error .fetchError
    | some posted0 =>
      if ∃ i ∈ st.cachedIds, i ∉ posted0.dedup then .error .assertError
      else
        match processNew w st.knownIds
            (posted0.dedup.filter (fun i => !decide (i ∈ st.cachedIds))) with
        | .error e => .error e
        | .ok (pairs, newRows) =>
          .ok (st.cacheEntries ++ pairs.map (fun p => (intToString p.1, p.2)),
               headerRow ::
                 (st.rows ++ backRows.map rowToStrings ++ newRows.map rowToStrings))

/-- `update_data_for_season`: the whole run, returning the durable
writes it performed (in order) and the error that aborted it, if any.
Both writes happen at lines 155-165, after every fetch of the run; an
aborted run performs no write. -/
def update_data_for_season (w : World) (fs : FS) : List Effect × Option RunError :=
  match loadState fs with
  | none => ([], some .parseError)
  | some st =>
    match runCore w st with
    | .error e => ([], some e)
    | .ok (obj, csvRows) => ([.writeCache obj, .writeCsv csvRows], none)

/-- The durable state when the run terminates (normally or not). -/
def finalFS (w : World) (fs : FS) : FS :=
  applyEffects fs (update_data_for_season w fs).1

/-- Interface assumption on the Stats Source: the match object served
for id `x` carries `match_id = x` (§6 of the spec: `matches/{id}`
yields the JSON object of that match). -/
def statsEcho (w : World) : Prop :=
  ∀ id m, w.statsPage id = some m → m.match_id = id

/-- The load-bearing uniqueness assumption of the spec: the detail
pages never map two distinct ld2l ids to the same non-zero OpenDota
id. -/
def mapperInj (w : World) : Prop :=
  ∀ i j oi, w.detailPage i = some oi → w.detailPage j = some oi → oi ≠ 0 → i = j

/-- What the next run's load phase sees in a written cache object:
`json.load` then int-parse every key, keeping each entry's value. -/
def nextLoadEntries (obj : JsonObj) : Option (List (Int × Int)) :=
  omap (fun p => (pyInt p.1).map (fun i => (i, p.2))) (pyDictOfList obj)

/-! ### The rate-limited puller (`RateLimitedPuller`) -/

/-- An HTTP response as far as this model cares: `requests.get` returns
one (with any status code, error statuses included) unless it raises. -/
structure Response where
  status : Nat
deriving DecidableEq, Repr

/-- The mutable state of a `RateLimitedPuller`: the configured minimum
interval, the previously recorded call instant (`0` at construction),
and the base URL. -/
structure RateLimitedPuller where
  duration : ℚ
  prev_pull : ℚ
  base_url : String
deriving DecidableEq, Repr

/-- State update of `RateLimitedPuller.pull` around the network call:
when `requests.get` returns a response (whatever its status), line 24
runs and records the post-response instant `tAfter` into `prev_pull`;
when it raises, the exception propagates before line 24, leaving
`prev_pull` unchanged. -/
def RateLimitedPuller.pull (st : RateLimitedPuller) (result : Except Unit Response)
    (tAfter : ℚ) : Except Unit Response × RateLimitedPuller :=
  match result with
  | .ok r => (.ok r, { st with prev_pull := tAfter })
  | .error e => (.error e, st)

/-- Timing trace of one successful `pull` call: the `time.time()`
reading at entry, the instant the request is issued (after the
conditional sleep), and the `time.time()` reading recorded after the
response. -/
structure PullEvent where
  now : ℚ
  reqStart : ℚ
  setTime : ℚ
deriving DecidableEq, Repr

/-- How long line 22 sleeps: the remainder of the interval, if any. -/
def sleepAmount (d prev now : ℚ) : ℚ :=
  if now - prev < d then d - (now - prev) else 0

/-- Timing constraints the code imposes on one call, given the stored
`prev_pull`: the clock is monotone (`prev` was read no later than
`now`), the request is issued only after the sleep of line 21-22
finishes (`time.sleep(x)` suspends for at least `x`), and the
post-response reading is no earlier than the request start. -/
def validPull (d prev : ℚ) (e : PullEvent) : Prop :=
  prev ≤ e.now ∧ e.now + sleepAmount d prev e.now ≤ e.reqStart ∧
    e.reqStart ≤ e.setTime

/-- Timing trace of a sequence of successful `pull` calls on one
instance, threading `prev_pull := setTime` after each call. -/
def validTrace (d : ℚ) : ℚ → List PullEvent → Prop
  | _, [] => True
  | prev, e :: rest => validPull d prev e ∧ validTrace d e.setTime rest

/-! ### Concrete instances used by closed-form checks -/

/-- A world with one completed match (ld2l id 5), a detail page mapping
id `i` to OpenDota id `i + 95`, and a stats source that echoes the
requested id; used to exercise a full successful run. -/
def exWorld : World :=
  { listPage := some [5]
    detailPage := fun i => some (i + 95)
    statsPage := fun id => some
      { match_id := id, radiant_team_id := 1, dire_team_id := 2,
        players := [⟨0, 1, 2, 3, 4, 5⟩, ⟨128, 6, 7, 8, 9, 10⟩] } }

/-- A world where every fetch raises. -/
def exWorldFail : World :=
  { listPage := none, detailPage := fun _ => none, statsPage := fun _ => none }

/-- First-run durable state: neither file exists yet. -/
def emptyFS : FS := ⟨none, none⟩

/-- A synthetic match record with five players in slots 0-4 and five in
slots 128-132. -/
def exMatch : MatchRec :=
  { match_id := 777, radiant_team_id := 11, dire_team_id := 22,
    players :=
      [⟨0, 1, 1, 1, 10, 20⟩, ⟨1, 2, 0, 3, 11, 21⟩, ⟨2, 0, 2, 1, 12, 22⟩,
       ⟨3, 4, 1, 0, 13, 23⟩, ⟨4, 1, 1, 2, 14, 24⟩,
       ⟨128, 3, 2, 1, 15, 25⟩, ⟨129, 2, 2, 2, 16, 26⟩, ⟨130, 1, 0, 1, 17, 27⟩,
       ⟨131, 0, 1, 4, 18, 28⟩, ⟨132, 2, 3, 0, 19, 29⟩] }

/-- A two-call timing trace for a puller with a 15-second interval. -/
def exTrace : List PullEvent := [⟨1000, 1015, 1016⟩, ⟨1016, 1031, 1032⟩]

/-- A freshly constructed puller (`prev_pull = 0`). -/
def exPuller : RateLimitedPuller := ⟨15, 0, ""⟩

/-- A consistent one-match state: the cache pairs ld2l id 5 with
OpenDota id 100 and the table has the row for 100. -/
def fs4 : FS :=
  ⟨some [("5", 100)],
   some [headerRow, ["100", "1", "1", "2", "3", "4", "5", "2", "6", "7", "8", "9", "10"]]⟩

/-- A world where the season page still lists match 5 (nothing new) and
every other fetch would raise. -/
def w4 : World :=
  { listPage := some [5], detailPage := fun _ => none, statsPage := fun _ => none }

/-- The load-phase result for `fs4`. -/
def st4 : Loaded :=
  ⟨[("5", 100)], [5],
   [["100", "1", "1", "2", "3", "4", "5", "2", "6", "7", "8", "9", "10"]], [100]⟩

/-- A cache claiming ld2l match 7 was completed (a forfeit, id 0). -/
def fs9 : FS := ⟨some [("7", 0)], none⟩

/-- A world whose season page no longer lists any completed match. -/
def w9 : World :=
  { listPage := some [], detailPage := fun _ => none, statsPage := fun _ => none }

/-- The load-phase result for `fs9`. -/
def st9 : Loaded := ⟨[("7", 0)], [7], [], []⟩

end Dota

namespace Dota

/-! ### Decimal round-trip lemmas -/

theorem natDigitsF_stable (n : Nat) : ∀ f g, n < f → n < g → natDigitsF f n = natDigitsF g n := by
  induction n using Nat.strong_induction_on with
  | _ n ih =>
    intro f g hf hg
    obtain ⟨f, rfl⟩ : ∃ f1, f = f1 + 1 := ⟨f - 1, by omega⟩
    obtain ⟨g, rfl⟩ : ∃ g1, g = g1 + 1 := ⟨g - 1, by omega⟩
    simp only [natDigitsF]
    by_cases h : n < 10
    · simp [h]
    · have hd : n / 10 < n := Nat.div_lt_self (by omega) (by omega)
      simp only [h, if_false]
      rw [ih (n / 10) hd f g (by omega) (by omega)]

theorem natDigits_eq (n : Nat) :
    natDigits n = if n < 10 then [digitChar n]
      else natDigits (n / 10) ++ [digitChar (n % 10)] := by
  by_cases h : n < 10
  · simp only [h, if_true]
    unfold natDigits natDigitsF
    simp [h]
  · simp only [h, if_false]
    have h1 : natDigits n = natDigitsF n (n / 10) ++ [digitChar (n % 10)] := by
      unfold natDigits
      conv_lhs => rw [natDigitsF]
      simp [h]
    rw [h1]
    congr 1
    exact natDigitsF_stable (n / 10) n (n / 10 + 1)
      (Nat.div_lt_self (by omega) (by omega)) (by omega)

theorem digitVal_digitChar (d : Nat) (h : d < 10) : digitVal (digitChar d) = some d := by
  interval_cases d <;> decide

theorem digitChar_ne_dash (d : Nat) (h : d < 10) : digitChar d ≠ '-' := by
  interval_cases d <;> decide

theorem natDigits_head (n : Nat) : ∃ d rest, d < 10 ∧ natDigits n = digitChar d :: rest := by
  induction n using Nat.strong_induction_on with
  | _ n ih =>
    rw [natDigits_eq]
    by_cases h : n < 10
    · exact ⟨n, [], h, by simp [h]⟩
    · have hd : n / 10 < n := Nat.div_lt_self (by omega) (by omega)
      obtain ⟨d, rest, hd10, heq⟩ := ih (n / 10) hd
      exact ⟨d, rest ++ [digitChar (n % 10)], hd10, by simp [h, heq]⟩

theorem parseAcc_append (xs : List Char) : ∀ ys a, parseAcc a (xs ++ ys) =
    match parseAcc a xs with
    | some b => parseAcc b ys
    | none => none := by
  induction xs with
  | nil => intro ys a; rfl
  | cons c cs ih =>
    intro ys a
    simp only [List.cons_append, parseAcc]
    cases digitVal c with
    | none => rfl
    | some d => exact ih ys (a * 10 + d)

theorem parseAcc_natDigits (n : Nat) : ∀ a, parseAcc a (natDigits n) =
    some (a * 10 ^ (natDigits n).length + n) := by
  induction n using Nat.strong_induction_on with
  | _ n ih =>
    intro a
    rw [natDigits_eq]
    by_cases h : n < 10
    · simp [h, parseAcc, digitVal_digitChar n h]
    · have hd : n / 10 < n := Nat.div_lt_self (by omega) (by omega)
      simp only [h, if_false]
      rw [parseAcc_append, ih (n / 10) hd a]
      simp only [parseAcc, digitVal_digitChar (n % 10) (by omega)]
      have hmod : 10 * (n / 10) + n % 10 = n := Nat.div_add_mod n 10
      have harith : (a * 10 ^ (natDigits (n / 10)).length + n / 10) * 10 + n % 10 =
          a * 10 ^ ((natDigits (n / 10)).length + 1) + n := by
        rw [pow_succ]
        have : (a * 10 ^ (natDigits (n / 10)).length + n / 10) * 10 + n % 10 =
            a * (10 ^ (natDigits (n / 10)).length * 10) + (10 * (n / 10) + n % 10) := by ring
        rw [this, hmod]
      simp only [List.length_append, List.length_singleton]
      rw [harith]

theorem parseDigits_natDigits (n : Nat) : parseDigits (natDigits n) = some n := by
  obtain ⟨d, rest, hd, heq⟩ := natDigits_head n
  have h1 : parseDigits (natDigits n) = parseAcc 0 (natDigits n) := by
    rw [heq]; rfl
  rw [h1, parseAcc_natDigits]
  simp

theorem pyInt_intToString (n : Int) : pyInt (intToString n) = some n := by
  unfold intToString
  by_cases h : n < 0
  · simp only [h, if_true]
    have h1 : pyInt (String.mk ('-' :: natDigits n.natAbs)) =
        (parseDigits (natDigits n.natAbs)).map (fun m => -(m : Int)) := by
      unfold pyInt
      simp
    rw [h1, parseDigits_natDigits]
    show some (-(n.natAbs : Int)) = some n
    congr 1
    omega
  · simp only [h, if_false]
    obtain ⟨d, rest, hd, heq⟩ := natDigits_head n.toNat
    have hne : digitChar d ≠ '-' := digitChar_ne_dash d hd
    have h1 : pyInt (String.mk (natDigits n.toNat)) =
        (parseDigits (natDigits n.toNat)).map (fun m => (m : Int)) := by
      rw [heq]
      unfold pyInt
      simp [hne]
    rw [h1, parseDigits_natDigits]
    show some ((n.toNat : Int)) = some n
    congr 1
    omega

theorem intToString_inj {a b : Int} (h : intToString a = intToString b) : a = b := by
  have ha := pyInt_intToString a
  rw [h, pyInt_intToString b] at ha
  exact (Option.some_inj.mp ha).symm

end Dota

namespace Dota

/-! ### Python dict lemmas -/

theorem insertEntry_of_not_mem (d : List (String × Int)) (k : String) (v : Int)
    (h : k ∉ d.map Prod.fst) : insertEntry d k v = d ++ [(k, v)] := by
  unfold insertEntry
  simp [h]

theorem insertEntry_keys (d : List (String × Int)) (k : String) (v : Int) :
    (insertEntry d k v).map Prod.fst =
      if k ∈ d.map Prod.fst then d.map Prod.fst else d.map Prod.fst ++ [k] := by
  unfold insertEntry
  by_cases h : k ∈ d.map Prod.fst
  · simp only [h, if_true, List.map_map]
    apply List.map_congr_left
    intro p hp
    by_cases h2 : p.1 = k
    · simp [Function.comp, h2]
    · simp [Function.comp, h2]
  · simp [h]

theorem pyDict_build_nodup (l : List (String × Int)) : ∀ d : List (String × Int),
    (d.map Prod.fst).Nodup →
    ((l.foldl (fun d p => insertEntry d p.1 p.2) d).map Prod.fst).Nodup := by
  induction l with
  | nil => intro d hd; simpa using hd
  | cons p l ih =>
    intro d hd
    simp only [List.foldl_cons]
    apply ih
    rw [insertEntry_keys]
    by_cases h : p.1 ∈ d.map Prod.fst
    · simp [h, hd]
    · simp only [h, if_false]
      simp [List.nodup_append, hd, h]

theorem pyDictOfList_keys_nodup (l : List (String × Int)) :
    ((pyDictOfList l).map Prod.fst).Nodup :=
  pyDict_build_nodup l [] (by simp)

theorem pyDict_build_self (l : List (String × Int)) : ∀ d : List (String × Int),
    ((d ++ l).map Prod.fst).Nodup →
    l.foldl (fun d p => insertEntry d p.1 p.2) d = d ++ l := by
  induction l with
  | nil => intro d hd; simp
  | cons p l ih =>
    intro d hd
    have hp : p.1 ∉ d.map Prod.fst := by
      simp only [List.map_append, List.map_cons, List.nodup_append] at hd
      intro hmem
      exact hd.2.2 hmem (by simp)
    simp only [List.foldl_cons]
    rw [insertEntry_of_not_mem _ _ _ hp]
    have heta : (p.1, p.2) = p := rfl
    rw [heta]
    have hl : (d ++ [p]) ++ l = d ++ p :: l := by simp
    have hih := ih (d ++ [p]) (by rw [hl]; exact hd)
    rw [hih, hl]

theorem pyDictOfList_self (l : List (String × Int)) (h : (l.map Prod.fst).Nodup) :
    pyDictOfList l = l := by
  have := pyDict_build_self l [] (by simpa using h)
  simpa using this

/-! ### Traversal lemmas -/

theorem omap_cons_some {f : α → Option β} {a : α} {l : List α} {out : List β}
    (h : omap f (a :: l) = some out) :
    ∃ b bs, f a = some b ∧ omap f l = some bs ∧ out = b :: bs := by
  simp only [omap] at h
  cases hfa : f a with
  | none => rw [hfa] at h; cases h
  | some b =>
    rw [hfa] at h
    cases hol : omap f l with
    | none => rw [hol] at h; cases h
    | some bs =>
      rw [hol] at h
      exact ⟨b, bs, rfl, rfl, (Option.some_inj.mp h).symm⟩

theorem omap_append {f : α → Option β} {l1 l2 : List α} {o1 o2 : List β}
    (h1 : omap f l1 = some o1) (h2 : omap f l2 = some o2) :
    omap f (l1 ++ l2) = some (o1 ++ o2) := by
  induction l1 generalizing o1 with
  | nil =>
    simp only [omap] at h1
    cases h1
    simpa using h2
  | cons a l ih =>
    obtain ⟨b, bs, hfa, hol, rfl⟩ := omap_cons_some h1
    show omap f (a :: (l ++ l2)) = some (b :: (bs ++ o2))
    unfold omap
    rw [hfa, ih hol]

theorem omap_of_forall {f : α → Option β} {g : α → β} (l : List α)
    (h : ∀ a ∈ l, f a = some (g a)) : omap f l = some (l.map g) := by
  induction l with
  | nil => rfl
  | cons a l ih =>
    simp only [omap, h a (by simp), ih fun a ha => h a (List.mem_cons_of_mem _ ha),
      List.map_cons]

theorem omap_mem {f : α → Option β} {l : List α} {out : List β}
    (h : omap f l = some out) : ∀ a ∈ l, ∃ b ∈ out, f a = some b := by
  induction l generalizing out with
  | nil => intro a ha; cases ha
  | cons x l ih =>
    obtain ⟨b, bs, hfx, hol, rfl⟩ := omap_cons_some h
    intro a ha
    rcases List.mem_cons.mp ha with rfl | ha
    · exact ⟨b, by simp, hfx⟩
    · obtain ⟨c, hc, hfc⟩ := ih hol a ha
      exact ⟨c, List.mem_cons_of_mem _ hc, hfc⟩

theorem omap_zip {l : List (String × Int)} {ids : List Int}
    (h : omap (fun p => pyInt p.1) l = some ids) :
    omap (fun p => (pyInt p.1).map (fun i => (i, p.2))) l =
      some (ids.zip (l.map Prod.snd)) := by
  induction l generalizing ids with
  | nil =>
    simp only [omap] at h
    cases h
    rfl
  | cons p l ih =>
    obtain ⟨b, bs, hfp, hol, rfl⟩ := omap_cons_some h
    simp only [omap, hfp, Option.map_some', ih hol, List.map_cons, List.zip_cons_cons]

/-! ### Association-list lookup lemmas -/

theorem lookup_of_mem_nodup : ∀ {l : List (String × Int)} {k : String} {v : Int},
    (l.map Prod.fst).Nodup → (k, v) ∈ l → l.lookup k = some v := by
  intro l
  induction l with
  | nil => intro k v _ h; cases h
  | cons p l ih =>
    intro k v hn h
    simp only [List.map_cons, List.nodup_cons] at hn
    rcases List.mem_cons.mp h with rfl | h
    · simp [List.lookup]
    · have hk : k ∈ l.map Prod.fst := List.mem_map.mpr ⟨(k, v), h, rfl⟩
      have hne : (k == p.1) = false := by
        rw [beq_eq_false_iff_ne]
        intro hkp
        exact hn.1 (hkp ▸ hk)
      simp only [List.lookup, hne]
      exact ih hn.2 h

theorem lookup_append_of_mem : ∀ {l1 : List (String × Int)} (l2 : List (String × Int))
    {k : String}, k ∈ l1.map Prod.fst → (l1 ++ l2).lookup k = l1.lookup k := by
  intro l1
  induction l1 with
  | nil => intro l2 k h; cases h
  | cons p l ih =>
    intro l2 k h
    simp only [List.cons_append, List.lookup]
    cases hk : (k == p.1) with
    | true => rfl
    | false =>
      apply ih
      simp only [List.map_cons, List.mem_cons] at h
      rcases h with h | h
      · rw [beq_eq_false_iff_ne] at hk
        exact absurd h hk
      · exact h

end Dota

namespace Dota

/-! ### Extractor and fetch lemmas -/

theorem desired_fields_match_id {m : MatchRec} {r : Row} (h : desired_fields m = some r) :
    r.match_id = m.match_id := by
  unfold desired_fields at h
  cases hs : sumTeamsAux m.players (Stats.zero, Stats.zero) with
  | none => rw [hs] at h; cases h
  | some rd => rw [hs] at h; cases h; rfl

theorem fetchRow_ok {w : World} {id : Int} {r : Row} (h : fetchRow w id = .ok r) :
    ∃ m, w.statsPage id = some m ∧ desired_fields m = some r := by
  unfold fetchRow at h
  split at h
  · exact Except.noConfusion h
  · rename_i m hs
    split at h
    · exact Except.noConfusion h
    · rename_i r2 hd
      cases h
      exact ⟨m, hs, hd⟩

theorem fetchRow_echo {w : World} (he : statsEcho w) {id : Int} {r : Row}
    (h : fetchRow w id = .ok r) : r.match_id = id := by
  obtain ⟨m, hs, hd⟩ := fetchRow_ok h
  rw [desired_fields_match_id hd, he id m hs]

/-! ### Backfill lemmas -/

theorem backfill_map_id {w : World} (he : statsEcho w) : ∀ {ids : List Int} {rows : List Row},
    backfill w ids = .ok rows → rows.map Row.match_id = ids := by
  intro ids
  induction ids with
  | nil =>
    intro rows h
    unfold backfill at h
    cases h
    rfl
  | cons id rest ih =>
    intro rows h
    unfold backfill at h
    split at h
    · exact Except.noConfusion h
    · rename_i r hf
      split at h
      · exact Except.noConfusion h
      · rename_i rs hb
        cases h
        simp only [List.map_cons, ih hb, fetchRow_echo he hf]

/-! ### New-match loop lemmas -/

theorem fetchNewRows_ok {w : World} {k : List Int} {od : Int} {nr : List Row}
    (h : fetchNewRows w k od = .ok nr) :
    (od ≠ 0 ∧ od ∉ k ∧ ∃ r, fetchRow w od = .ok r ∧ nr = [r]) ∨
      ((od = 0 ∨ od ∈ k) ∧ nr = []) := by
  unfold fetchNewRows at h
  by_cases hod : od ≠ 0 ∧ od ∉ k
  · rw [if_pos hod] at h
    cases hf : fetchRow w od with
    | error e => rw [hf] at h; exact Except.noConfusion h
    | ok r =>
      rw [hf] at h
      left
      refine ⟨hod.1, hod.2, r, rfl, ?_⟩
      simpa [Except.map] using h.symm
  · rw [if_neg hod] at h
    right
    refine ⟨?_, by simpa using h.symm⟩
    push_neg at hod
    by_cases h0 : od = 0
    · exact Or.inl h0
    · exact Or.inr (hod h0)

theorem processNew_ok {w : World} {k : List Int} : ∀ {ids : List Int}
    {pairs : List (Int × Int)} {rows : List Row},
    processNew w k ids = .ok (pairs, rows) →
    pairs.map Prod.fst = ids ∧
    (∀ p ∈ pairs, w.detailPage p.1 = some p.2) ∧
    (∀ r ∈ rows, ∃ p ∈ pairs, p.2 ≠ 0 ∧ p.2 ∉ k ∧ fetchRow w p.2 = .ok r) ∧
    (∀ p ∈ pairs, p.2 = 0 ∨ p.2 ∈ k ∨ ∃ r ∈ rows, fetchRow w p.2 = .ok r) := by
  intro ids
  induction ids with
  | nil =>
    intro pairs rows h
    unfold processNew at h
    cases h
    simp
  | cons i rest ih =>
    intro pairs rows h
    unfold processNew at h
    split at h
    · exact Except.noConfusion h
    · rename_i od hd
      split at h
      · exact Except.noConfusion h
      · rename_i nr hnr
        split at h
        · exact Except.noConfusion h
        · rename_i ps rs hp
          cases h
          obtain ⟨ih1, ih2, ih3, ih4⟩ := ih hp
          rcases fetchNewRows_ok hnr with ⟨h0, hk, r, hf, rfl⟩ | ⟨hor, rfl⟩
          · refine ⟨by simp [ih1], ?_, ?_, ?_⟩
            · intro p hp2
              rcases List.mem_cons.mp hp2 with rfl | hp2
              · exact hd
              · exact ih2 p hp2
            · intro r2 hr2
              rcases List.mem_append.mp hr2 with hr2 | hr2
              · rw [List.mem_singleton] at hr2
                subst hr2
                exact ⟨(i, od), by simp, h0, hk, hf⟩
              · obtain ⟨p, hpmem, h1, h2, h3⟩ := ih3 r2 hr2
                exact ⟨p, List.mem_cons_of_mem _ hpmem, h1, h2, h3⟩
            · intro p hp2
              rcases List.mem_cons.mp hp2 with rfl | hp2
              · exact Or.inr (Or.inr ⟨r, by simp, hf⟩)
              · rcases ih4 p hp2 with h1 | h1 | ⟨r2, hr2, h1⟩
                · exact Or.inl h1
                · exact Or.inr (Or.inl h1)
                · exact Or.inr (Or.inr ⟨r2, by simp [hr2], h1⟩)
          · refine ⟨by simp [ih1], ?_, ?_, ?_⟩
            · intro p hp2
              rcases List.mem_cons.mp hp2 with rfl | hp2
              · exact hd
              · exact ih2 p hp2
            · intro r2 hr2
              simp only [List.nil_append] at hr2
              obtain ⟨p, hpmem, h1, h2, h3⟩ := ih3 r2 hr2
              exact ⟨p, List.mem_cons_of_mem _ hpmem, h1, h2, h3⟩
            · intro p hp2
              rcases List.mem_cons.mp hp2 with rfl | hp2
              · rcases hor with h1 | h1
                · exact Or.inl h1
                · exact Or.inr (Or.inl h1)
              · rcases ih4 p hp2 with h1 | h1 | ⟨r2, hr2, h1⟩
                · exact Or.inl h1
                · exact Or.inr (Or.inl h1)
                · exact Or.inr (Or.inr ⟨r2, by simpa using hr2, h1⟩)

end Dota

namespace Dota

theorem processNew_rows_nodup {w : World} (he : statsEcho w) (hm : mapperInj w)
    {k : List Int} : ∀ {ids : List Int} {pairs : List (Int × Int)} {rows : List Row},
    ids.Nodup → processNew w k ids = .ok (pairs, rows) →
    (∀ r ∈ rows, (∃ i ∈ ids, w.detailPage i = some r.match_id) ∧ r.match_id ≠ 0 ∧
      r.match_id ∉ k) ∧
    (rows.map Row.match_id).Nodup := by
  intro ids
  induction ids with
  | nil =>
    intro pairs rows _ h
    unfold processNew at h
    cases h
    simp
  | cons i rest ih =>
    intro pairs rows hnd h
    unfold processNew at h
    split at h
    · exact Except.noConfusion h
    · rename_i od hd
      split at h
      · exact Except.noConfusion h
      · rename_i nr hnr
        split at h
        · exact Except.noConfusion h
        · rename_i ps rs hp
          cases h
          obtain ⟨hir, hrestnd⟩ := List.nodup_cons.mp hnd
          obtain ⟨ihA, ihB⟩ := ih hrestnd hp
          rcases fetchNewRows_ok hnr with ⟨h0, hk, r, hf, rfl⟩ | ⟨hor, rfl⟩
          · have hrid : r.match_id = od := fetchRow_echo he hf
            constructor
            · intro r2 hr2
              rcases List.mem_append.mp hr2 with hr2 | hr2
              · rw [List.mem_singleton] at hr2
                subst hr2
                refine ⟨⟨i, by simp, ?_⟩, ?_, ?_⟩
                · rw [hrid]; exact hd
                · rw [hrid]; exact h0
                · rw [hrid]; exact hk
              · obtain ⟨⟨j, hj, hdj⟩, hz, hknotin⟩ := ihA r2 hr2
                exact ⟨⟨j, List.mem_cons_of_mem _ hj, hdj⟩, hz, hknotin⟩
            · simp only [List.map_append, List.map_cons, List.map_nil]
              rw [List.nodup_append]
              refine ⟨by simp, ihB, ?_⟩
              intro a ha hb
              simp only [List.cons_append, List.nil_append, List.mem_singleton] at ha
              subst ha
              obtain ⟨r2, hr2, hr2eq⟩ := List.mem_map.mp hb
              obtain ⟨⟨j, hj, hdj⟩, hz, _⟩ := ihA r2 hr2
              have hdj2 : w.detailPage j = some od := by
                rw [hr2eq, hrid] at hdj
                exact hdj
              have hij : i = j := hm i j od hd hdj2 h0
              exact hir (hij ▸ hj)
          · constructor
            · intro r2 hr2
              simp only [List.nil_append] at hr2
              obtain ⟨⟨j, hj, hdj⟩, hz, hknotin⟩ := ihA r2 hr2
              exact ⟨⟨j, List.mem_cons_of_mem _ hj, hdj⟩, hz, hknotin⟩
            · simpa using ihB

/-! ### Load-phase lemmas -/

theorem loadState_some {fs : FS} {st : Loaded} (h : loadState fs = some st) :
    st.cacheEntries = pyDictOfList (fs.cacheFile.getD []) ∧
    omap (fun p => pyInt p.1) st.cacheEntries = some st.cachedIds ∧
    st.rows = csvRowsOf fs ∧
    omap rowKeyInt st.rows = some st.knownIds := by
  unfold loadState at h
  split at h
  · exact Option.noConfusion h
  · rename_i cachedIds h1
    split at h
    · exact Option.noConfusion h
    · rename_i knownIds h2
      cases h
      exact ⟨rfl, h1, rfl, h2⟩

theorem loadState_mk {fs : FS} {cachedIds knownIds : List Int}
    (h1 : omap (fun p => pyInt p.1) (pyDictOfList (fs.cacheFile.getD [])) = some cachedIds)
    (h2 : omap rowKeyInt (csvRowsOf fs) = some knownIds) :
    loadState fs =
      some ⟨pyDictOfList (fs.cacheFile.getD []), cachedIds, csvRowsOf fs, knownIds⟩ := by
  unfold loadState
  split
  · rename_i hnone
    rw [h1] at hnone
    exact Option.noConfusion hnone
  · rename_i ids hsome
    rw [h1] at hsome
    cases hsome
    split
    · rename_i hnone
      rw [h2] at hnone
      exact Option.noConfusion hnone
    · rename_i ks hsome2
      rw [h2] at hsome2
      cases hsome2
      rfl

/-! ### Engine-core lemmas -/

theorem runCore_ok_inv {w : World} {st : Loaded} {obj : JsonObj} {csv : CsvFile}
    (h : runCore w st = .ok (obj, csv)) :
    ∃ backRows posted0 pairs newRows,
      backfill w (backfillIds st) = .ok backRows ∧
      w.listPage = some posted0 ∧
      (∀ i ∈ st.cachedIds, i ∈ posted0.dedup) ∧
      processNew w st.knownIds
        (posted0.dedup.filter (fun i => !decide (i ∈ st.cachedIds))) = .ok (pairs, newRows) ∧
      obj = st.cacheEntries ++ pairs.map (fun p => (intToString p.1, p.2)) ∧
      csv = headerRow ::
        (st.rows ++ backRows.map rowToStrings ++ newRows.map rowToStrings) := by
  unfold runCore at h
  split at h
  · exact Except.noConfusion h
  · rename_i backRows hb
    split at h
    · exact Except.noConfusion h
    · rename_i posted0 hl
      split at h
      · exact Except.noConfusion h
      · rename_i ha
        split at h
        · exact Except.noConfusion h
        · rename_i ps rs hp
          cases h
          refine ⟨backRows, posted0, ps, rs, hb, hl, ?_, hp, rfl, rfl⟩
          intro i hi
          by_contra hni
          exact ha ⟨i, hi, hni⟩

theorem runCore_mk_nonew {w : World} {st : Loaded} {posted0 : List Int}
    (hb : backfillIds st = [])
    (hl : w.listPage = some posted0)
    (ha : ¬ ∃ i ∈ st.cachedIds, i ∉ posted0.dedup)
    (hn : posted0.dedup.filter (fun i => !decide (i ∈ st.cachedIds)) = []) :
    runCore w st = .ok (st.cacheEntries, headerRow :: st.rows) := by
  unfold runCore
  rw [hb]
  split
  · rename_i e he
    exact Except.noConfusion he
  · rename_i backRows hbr
    injection hbr with hbr2
    subst hbr2
    split
    · rename_i hnone
      rw [hl] at hnone
      exact Option.noConfusion hnone
    · rename_i posted1 hsome
      rw [hl] at hsome
      cases hsome
      rw [if_neg ha, hn]
      split
      · rename_i e he
        exact Except.noConfusion he
      · rename_i ps rs hp
        rw [show processNew w st.knownIds [] = .ok ([], []) from rfl] at hp
        cases hp
        simp

/-! ### Whole-run lemmas -/

theorem update_shape (w : World) (fs : FS) :
    (∃ e, update_data_for_season w fs = ([], some e)) ∨
    (∃ obj csv, update_data_for_season w fs =
      ([Effect.writeCache obj, Effect.writeCsv csv], none)) := by
  unfold update_data_for_season
  split
  · exact Or.inl ⟨_, rfl⟩
  · rename_i st hst
    split
    · rename_i e he
      exact Or.inl ⟨e, rfl⟩
    · rename_i obj csv hrc
      exact Or.inr ⟨obj, csv, rfl⟩

theorem update_ok_inv {w : World} {fs : FS} {effs : List Effect}
    (h : update_data_for_season w fs = (effs, none)) :
    ∃ st obj csv, loadState fs = some st ∧ runCore w st = .ok (obj, csv) ∧
      effs = [Effect.writeCache obj, Effect.writeCsv csv] := by
  unfold update_data_for_season at h
  split at h
  · exact absurd (congrArg Prod.snd h) (by simp)
  · rename_i st hst
    split at h
    · exact absurd (congrArg Prod.snd h) (by simp)
    · rename_i obj csv hrc
      refine ⟨st, obj, csv, hst, hrc, ?_⟩
      have h1 := congrArg Prod.fst h
      simpa using h1.symm

theorem update_mk {w : World} {fs : FS} {st : Loaded} {obj : JsonObj} {csv : CsvFile}
    (hst : loadState fs = some st) (hrc : runCore w st = .ok (obj, csv)) :
    update_data_for_season w fs = ([Effect.writeCache obj, Effect.writeCsv csv], none) := by
  unfold update_data_for_season
  split
  · rename_i hnone
    rw [hst] at hnone
    exact Option.noConfusion hnone
  · rename_i st2 hsome
    rw [hst] at hsome
    cases hsome
    split
    · rename_i e he
      rw [hrc] at he
      exact Except.noConfusion he
    · rename_i obj2 csv2 hok
      rw [hrc] at hok
      cases hok
      rfl

theorem finalFS_of_ok {w : World} {fs : FS} {obj : JsonObj} {csv : CsvFile}
    (h : update_data_for_season w fs = ([Effect.writeCache obj, Effect.writeCsv csv], none)) :
    finalFS w fs = ⟨some obj, some csv⟩ := by
  unfold finalFS
  rw [h]
  rfl

end Dota

namespace Dota

/-! ### Claim C1 -/

/-- C1: if any fetch of a run raises (modelled as the run terminating
with an error), the run performs no durable write: the pairing cache
file and the CSV table file retain exactly their prior contents; both
writes happen only on the all-fetches-succeeded path. -/
theorem claim1_error_writes_nothing (w : World) (fs : FS) (e : RunError)
    (h : (update_data_for_season w fs).2 = some e) :
    (update_data_for_season w fs).1 = [] ∧ finalFS w fs = fs := by
  rcases update_shape w fs with ⟨e2, hu⟩ | ⟨obj, csv, hu⟩
  · refine ⟨by rw [hu], ?_⟩
    unfold finalFS
    rw [hu]
    rfl
  · rw [hu] at h
    simp at h

/-- Closed instance of C1: a run whose very first network fetch raises
terminates with an error, performs no write, and leaves the durable
state untouched. -/
theorem claim1_witness :
    (update_data_for_season exWorldFail emptyFS).2 = some RunError.fetchError ∧
    ((update_data_for_season exWorldFail emptyFS).1 = [] ∧
      finalFS exWorldFail emptyFS = emptyFS) :=
  ⟨by decide,
   claim1_error_writes_nothing exWorldFail emptyFS RunError.fetchError (by decide)⟩

/-! ### Claim C5 -/

theorem validTrace_head_ge {d prev : ℚ} {e : PullEvent} {rest : List PullEvent}
    (h : validTrace d prev (e :: rest)) :
    prev + d ≤ e.reqStart ∧ validPull d prev e ∧
      validTrace d e.setTime rest := by
  unfold validTrace at h
  obtain ⟨h1, h2⟩ := h
  refine ⟨?_, h1, h2⟩
  obtain ⟨ha, hb, hc⟩ := h1
  unfold sleepAmount at hb
  by_cases hs : e.now - prev < d
  · rw [if_pos hs] at hb
    linarith
  · rw [if_neg hs] at hb
    push_neg at hs
    linarith

/-- C5: along any timing trace of successful `pull` calls on one
`RateLimitedPuller` with interval `d`, the instants at which
consecutive requests are issued are at least `d` apart. -/
theorem claim5_rate_limit_gap (d prev : ℚ) (tr : List PullEvent)
    (h : validTrace d prev tr) :
    ∀ i : Nat, ∀ h1 : i + 1 < tr.length,
      (tr.get ⟨i, by omega⟩).reqStart + d ≤ (tr.get ⟨i + 1, h1⟩).reqStart := by
  induction tr generalizing prev with
  | nil => intro i h1; simp at h1
  | cons e rest ih =>
    intro i h1
    obtain ⟨hge, hvp, htr⟩ := validTrace_head_ge h
    cases i with
    | zero =>
      cases rest with
      | nil => simp at h1
      | cons e2 rest2 =>
        obtain ⟨hge2, _, _⟩ := validTrace_head_ge htr
        have hset : e.reqStart ≤ e.setTime := hvp.2.2
        show e.reqStart + d ≤ e2.reqStart
        linarith
    | succ j =>
      have h2 : j + 1 < rest.length := by simpa using h1
      have h3 := ih e.setTime htr j h2
      exact h3

/-- Closed instance of C5: a concrete valid two-call trace with
interval 15 in which the second request starts at least 15 seconds
after the first. -/
theorem claim5_witness :
    validTrace 15 0 exTrace ∧
    (exTrace.get ⟨0, by decide⟩).reqStart + 15 ≤ (exTrace.get ⟨1, by decide⟩).reqStart := by
  have hvt : validTrace 15 0 exTrace := by
    simp only [exTrace, validTrace, validPull, sleepAmount]
    norm_num
  exact ⟨hvt, claim5_rate_limit_gap 15 0 exTrace hvt 0 (by decide)⟩

/-! ### Claim C6 -/

/-- C6 counterexample: a `pull` whose network call raises does not
record the post-call instant — `prev_pull` keeps its old value (0, not
the current time 5), so raising failed calls do not consume their
rate-limit slot.  This falsifies the claim that every call records the
current time even when the network call fails. -/
theorem claim6_counterexample :
    (RateLimitedPuller.pull exPuller (.error ()) 5).2.prev_pull ≠ 5 ∧
    (RateLimitedPuller.pull exPuller (.error ()) 5).2.prev_pull =
      exPuller.prev_pull := by
  decide

/-- C6 (amended): when the network call returns a response — whatever
its status, success or HTTP error — `pull` records the post-response
instant as `prev_pull`; when the network call raises, the exception
propagates before the assignment and `prev_pull` keeps its prior
value. -/
theorem claim6_prev_pull_update (st : RateLimitedPuller) (r : Response) (t : ℚ) :
    (st.pull (.ok r) t).2.prev_pull = t ∧
    ∀ e : Unit, (st.pull (.error e) t).2.prev_pull = st.prev_pull :=
  ⟨rfl, fun _ => rfl⟩

/-! ### Claim C8 -/

theorem sumTeamsAux_partition : ∀ (ps : List Player) (r d : Stats),
    (∀ p ∈ ps, p.player_slot ≤ 255) →
    sumTeamsAux ps (r, d) =
      some ((ps.filter (fun p => decide (p.player_slot ≤ 127))).foldl Stats.addPlayer r,
        (ps.filter (fun p => decide (128 ≤ p.player_slot))).foldl Stats.addPlayer d) := by
  intro ps
  induction ps with
  | nil => intro r d h; rfl
  | cons p ps ih =>
    intro r d h
    have hp := h p (by simp)
    have hrest : ∀ q ∈ ps, q.player_slot ≤ 255 :=
      fun q hq => h q (List.mem_cons_of_mem _ hq)
    by_cases hlt : p.player_slot ≤ 127
    · have hdiv : p.player_slot / 128 = 0 := Nat.div_eq_of_lt (by omega)
      have hnge : ¬ 128 ≤ p.player_slot := by omega
      unfold sumTeamsAux
      rw [hdiv]
      show sumTeamsAux ps (r.addPlayer p, d) = _
      rw [ih _ _ hrest]
      simp [List.filter_cons, hlt, hnge]
    · have hge : 128 ≤ p.player_slot := by omega
      have hdiv : p.player_slot / 128 = 1 := Nat.div_eq_of_lt_le (by omega) (by omega)
      unfold sumTeamsAux
      rw [hdiv]
      show sumTeamsAux ps (r, d.addPlayer p) = _
      rw [ih _ _ hrest]
      simp [List.filter_cons, hlt, hge]

/-- C8: for a match record whose players all carry slots in 0-255,
`desired_fields` returns the tuple `(match_id, radiant_team_id,`
five stat sums over exactly the slot-0-127 players, `dire_team_id`,
five stat sums over exactly the slot-128-255 players`)`. -/
theorem claim8_slot_partition (m : MatchRec)
    (h : ∀ p ∈ m.players, p.player_slot ≤ 255) :
    desired_fields m = some
      ⟨m.match_id, m.radiant_team_id,
        teamSum (m.players.filter (fun p => decide (p.player_slot ≤ 127))),
        m.dire_team_id,
        teamSum (m.players.filter (fun p => decide (128 ≤ p.player_slot)))⟩ := by
  unfold desired_fields teamSum
  rw [sumTeamsAux_partition m.players Stats.zero Stats.zero h]
  rfl

/-- Closed instance of C8: a record with five players at slots
0,1,2,3,4 and five at 128,129,130,131,132 — the first group is summed
into the radiant position, the second into the dire position. -/
theorem claim8_witness :
    (∀ p ∈ exMatch.players, p.player_slot ≤ 255) ∧
    desired_fields exMatch = some
      ⟨exMatch.match_id, exMatch.radiant_team_id,
        teamSum (exMatch.players.filter (fun p => decide (p.player_slot ≤ 127))),
        exMatch.dire_team_id,
        teamSum (exMatch.players.filter (fun p => decide (128 ≤ p.player_slot)))⟩ :=
  ⟨by decide, claim8_slot_partition exMatch (by decide)⟩

end Dota

namespace Dota

/-! ### Error-classification lemmas -/

theorem fetchRow_err {w : World} {id : Int} {e : RunError} (h : fetchRow w id = .error e) :
    e = RunError.fetchError ∨ e = RunError.parseError := by
  unfold fetchRow at h
  split at h
  · cases h
    exact Or.inl rfl
  · rename_i m hs
    split at h
    · cases h
      exact Or.inr rfl
    · exact Except.noConfusion h

theorem fetchNewRows_err {w : World} {k : List Int} {od : Int} {e : RunError}
    (h : fetchNewRows w k od = .error e) :
    e = RunError.fetchError ∨ e = RunError.parseError := by
  unfold fetchNewRows at h
  by_cases hod : od ≠ 0 ∧ od ∉ k
  · rw [if_pos hod] at h
    cases hf : fetchRow w od with
    | error e2 =>
      rw [hf] at h
      injection h with h2
      exact h2 ▸ fetchRow_err hf
    | ok r =>
      rw [hf] at h
      exact Except.noConfusion h
  · rw [if_neg hod] at h
    exact Except.noConfusion h

theorem backfill_err {w : World} : ∀ {ids : List Int} {e : RunError},
    backfill w ids = .error e → e = RunError.fetchError ∨ e = RunError.parseError := by
  intro ids
  induction ids with
  | nil => intro e h; exact Except.noConfusion h
  | cons id rest ih =>
    intro e h
    unfold backfill at h
    split at h
    · rename_i e2 hf
      cases h
      exact fetchRow_err hf
    · rename_i r hf
      split at h
      · rename_i e2 hb
        cases h
        exact ih hb
      · exact Except.noConfusion h

theorem processNew_err {w : World} {k : List Int} : ∀ {ids : List Int} {e : RunError},
    processNew w k ids = .error e → e = RunError.fetchError ∨ e = RunError.parseError := by
  intro ids
  induction ids with
  | nil => intro e h; exact Except.noConfusion h
  | cons i rest ih =>
    intro e h
    unfold processNew at h
    split at h
    · cases h
      exact Or.inl rfl
    · rename_i od hd
      split at h
      · rename_i e2 hn
        cases h
        exact fetchNewRows_err hn
      · rename_i nr hn
        split at h
        · rename_i e2 hp
          cases h
          exact ih hp
        · exact Except.noConfusion h

/-! ### Assertion-failure characterization -/

theorem runCore_assert_err {w : World} {st : Loaded} {backRows : List Row} {l : List Int}
    (hback : backfill w (backfillIds st) = .ok backRows)
    (hlist : w.listPage = some l)
    (hcond : ∃ i ∈ st.cachedIds, i ∉ l.dedup) :
    runCore w st = .error RunError.assertError := by
  unfold runCore
  split
  · rename_i e he
    rw [hback] at he
    exact Except.noConfusion he
  · rename_i backRows2 hbr
    split
    · rename_i hnone
      rw [hlist] at hnone
      exact Option.noConfusion hnone
    · rename_i posted1 hsome
      rw [hlist] at hsome
      cases hsome
      rw [if_pos hcond]

theorem update_of_runCore_err {w : World} {fs : FS} {st : Loaded} {e : RunError}
    (hload : loadState fs = some st) (hrc : runCore w st = .error e) :
    update_data_for_season w fs = ([], some e) := by
  unfold update_data_for_season
  split
  · rename_i hnone
    rw [hload] at hnone
    exact Option.noConfusion hnone
  · rename_i st2 hsome
    rw [hload] at hsome
    cases hsome
    split
    · rename_i e2 he2
      rw [hrc] at he2
      cases he2
      rfl
    · rename_i obj csv hok
      rw [hrc] at hok
      exact Except.noConfusion hok

theorem runCore_assertError_inv {w : World} {st : Loaded}
    (h : runCore w st = .error RunError.assertError) :
    ∃ l, w.listPage = some l ∧ ∃ i ∈ st.cachedIds, i ∉ l.dedup := by
  unfold runCore at h
  split at h
  · rename_i e2 hb
    cases h
    rcases backfill_err hb with h1 | h1 <;> exact RunError.noConfusion h1
  · rename_i backRows hb
    split at h
    · simp at h
    · rename_i posted0 hl
      by_cases hc : ∃ i ∈ st.cachedIds, i ∉ posted0.dedup
      · exact ⟨posted0, hl, hc⟩
      · rw [if_neg hc] at h
        split at h
        · rename_i e2 hp
          cases h
          rcases processNew_err hp with h1 | h1 <;> exact RunError.noConfusion h1
        · exact Except.noConfusion h

/-! ### Claim C9 -/

/-- C9: with the load phase and backfill done and the season list page
scraped into `l`, the run aborts with the consistency assertion error —
before any durable write — exactly when some cached ld2l id is missing
from `l`; when no cached id is missing, the assertion never fires. -/
theorem claim9_append_only_assert (w : World) (fs : FS) (st : Loaded)
    (backRows : List Row) (l : List Int)
    (hload : loadState fs = some st)
    (hback : backfill w (backfillIds st) = .ok backRows)
    (hlist : w.listPage = some l) :
    ((∃ i ∈ st.cachedIds, i ∉ l) →
      update_data_for_season w fs = ([], some RunError.assertError)) ∧
    ((∀ i ∈ st.cachedIds, i ∈ l) →
      (update_data_for_season w fs).2 ≠ some RunError.assertError) := by
  constructor
  · rintro ⟨i, hi, hni⟩
    have hcond : ∃ i ∈ st.cachedIds, i ∉ l.dedup :=
      ⟨i, hi, fun hm => hni (List.mem_dedup.mp hm)⟩
    exact update_of_runCore_err hload (runCore_assert_err hback hlist hcond)
  · intro hall hcontra
    unfold update_data_for_season at hcontra
    split at hcontra
    · simp at hcontra
    · rename_i st2 hsome
      rw [hload] at hsome
      cases hsome
      split at hcontra
      · rename_i e2 he2
        simp only [Prod.snd, Option.some_inj] at hcontra
        subst hcontra
        obtain ⟨l2, hl2, i, hi, hni⟩ := runCore_assertError_inv he2
        rw [hlist] at hl2
        cases hl2
        exact hni (List.mem_dedup.mpr (hall i hi))
      · simp at hcontra

/-- Closed instance of C9: a cache pairing ld2l id 7 while the site no
longer lists any completed match makes the run abort with the
assertion error and no write. -/
theorem claim9_witness :
    update_data_for_season w9 fs9 = ([], some RunError.assertError) :=
  (claim9_append_only_assert w9 fs9 st9 [] [] (by decide) (by rfl) (by rfl)).1
    ⟨7, by decide, by decide⟩

end Dota

namespace Dota

/-! ### Successful-run picture -/

theorem run_ok_picture {w : World} {fs : FS} {obj : JsonObj} {csv : CsvFile}
    (hrun : update_data_for_season w fs =
      ([Effect.writeCache obj, Effect.writeCsv csv], none)) :
    ∃ st backRows posted0 pairs newRows,
      loadState fs = some st ∧
      backfill w (backfillIds st) = .ok backRows ∧
      w.listPage = some posted0 ∧
      (∀ i ∈ st.cachedIds, i ∈ posted0.dedup) ∧
      processNew w st.knownIds
        (posted0.dedup.filter (fun i => !decide (i ∈ st.cachedIds))) = .ok (pairs, newRows) ∧
      obj = st.cacheEntries ++ pairs.map (fun p => (intToString p.1, p.2)) ∧
      csv = headerRow ::
        (st.rows ++ backRows.map rowToStrings ++ newRows.map rowToStrings) := by
  obtain ⟨st, obj2, csv2, hload, hrc, heff⟩ := update_ok_inv hrun
  simp only [List.cons.injEq, Effect.writeCache.injEq, Effect.writeCsv.injEq,
    and_true] at heff
  obtain ⟨h1, h2⟩ := heff
  subst h1
  subst h2
  obtain ⟨backRows, posted0, pairs, newRows, hb, hl, ha, hp, hobj, hcsv⟩ :=
    runCore_ok_inv hrc
  exact ⟨st, backRows, posted0, pairs, newRows, hload, hb, hl, ha, hp, hobj, hcsv⟩

/-! ### Serialized-key lemmas -/

theorem lookup_some_mem_keys : ∀ {l : List (String × Int)} {k : String} {v : Int},
    l.lookup k = some v → k ∈ l.map Prod.fst := by
  intro l
  induction l with
  | nil => intro k v h; exact Option.noConfusion h
  | cons p l ih =>
    intro k v h
    simp only [List.lookup] at h
    cases hk : (k == p.1) with
    | true =>
      simp only [List.map_cons, List.mem_cons]
      exact Or.inl (by simpa using hk)
    | false =>
      rw [hk] at h
      exact List.mem_cons_of_mem _ (ih h)

theorem ser_key_not_in_old {entries : JsonObj} {cachedIds : List Int} {k : Int}
    (hoc : omap (fun p => pyInt p.1) entries = some cachedIds)
    (hk : k ∉ cachedIds) : intToString k ∉ entries.map Prod.fst := by
  intro hmem
  obtain ⟨p, hp, hps⟩ := List.mem_map.mp hmem
  obtain ⟨b, hb, hpb⟩ := omap_mem hoc p hp
  rw [hps, pyInt_intToString] at hpb
  cases hpb
  exact hk hb

theorem ser_keys (pairs : List (Int × Int)) :
    (pairs.map (fun p => (intToString p.1, p.2))).map Prod.fst =
      (pairs.map Prod.fst).map intToString := by
  induction pairs with
  | nil => rfl
  | cons p ps ih => simp only [List.map_cons, ih]

theorem omap_pyInt_ser (pairs : List (Int × Int)) :
    omap (fun p => pyInt p.1) (pairs.map (fun p => (intToString p.1, p.2))) =
      some (pairs.map Prod.fst) := by
  induction pairs with
  | nil => rfl
  | cons p ps ih => simp only [List.map_cons, omap, pyInt_intToString, ih]

theorem omap_ser_pairs (pairs : List (Int × Int)) :
    omap (fun p => (pyInt p.1).map (fun i => (i, p.2)))
      (pairs.map (fun p => (intToString p.1, p.2))) = some pairs := by
  induction pairs with
  | nil => rfl
  | cons p ps ih =>
    simp only [List.map_cons, omap, pyInt_intToString, Option.map_some', ih]

theorem omap_rowKey_rows (rows : List Row) :
    omap rowKeyInt (rows.map rowToStrings) = some (rows.map Row.match_id) := by
  induction rows with
  | nil => rfl
  | cons r rs ih =>
    have hr : rowKeyInt (rowToStrings r) = some r.match_id := by
      unfold rowKeyInt rowToStrings
      simp [pyInt_intToString]
    simp only [List.map_cons, omap, hr, ih]

/-! ### Claim C7 -/

/-- C7: on a completed run, every entry the pairing cache held when it
was loaded appears unchanged in the written cache object; the merge
appends the new pairings after the old entries and never gives a new
entry an old entry's key, so no old value is overwritten. -/
theorem claim7_old_entries_preserved (w : World) (fs : FS) (st : Loaded)
    (obj : JsonObj) (csv : CsvFile)
    (hload : loadState fs = some st)
    (hrun : update_data_for_season w fs =
      ([Effect.writeCache obj, Effect.writeCsv csv], none)) :
    (∀ e ∈ st.cacheEntries, e ∈ obj) ∧
    (∀ k v, st.cacheEntries.lookup k = some v → obj.lookup k = some v) ∧
    (∃ newPart, obj = st.cacheEntries ++ newPart ∧
      ∀ p ∈ newPart, ∀ q ∈ st.cacheEntries, p.1 ≠ q.1) := by
  obtain ⟨st2, backRows, posted0, pairs, newRows, hload2, hb, hl, ha, hp, hobj, hcsv⟩ :=
    run_ok_picture hrun
  rw [hload] at hload2
  cases hload2
  obtain ⟨hce, hoc, hrows, hok2⟩ := loadState_some hload
  obtain ⟨hp1, hp2, hp3, hp4⟩ := processNew_ok hp
  have hnotin : ∀ k ∈ pairs.map Prod.fst, k ∉ st.cachedIds := by
    intro k hk
    rw [hp1, List.mem_filter] at hk
    simpa using hk.2
  refine ⟨?_, ?_, ?_⟩
  · intro e he
    rw [hobj]
    exact List.mem_append_left _ he
  · intro k v hkv
    rw [hobj, lookup_append_of_mem _ (lookup_some_mem_keys hkv)]
    exact hkv
  · refine ⟨pairs.map (fun p => (intToString p.1, p.2)), hobj, ?_⟩
    intro p hpmem q hq
    obtain ⟨p0, hp0, rfl⟩ := List.mem_map.mp hpmem
    intro heq
    have hq1 : intToString p0.1 ∈ st.cacheEntries.map Prod.fst := by
      rw [show ((intToString p0.1, p0.2) : String × Int).1 = intToString p0.1 from rfl] at heq
      rw [heq]
      exact List.mem_map.mpr ⟨q, hq, rfl⟩
    have hnot : p0.1 ∉ st.cachedIds := hnotin p0.1 (List.mem_map.mpr ⟨p0, hp0, rfl⟩)
    exact ser_key_not_in_old hoc hnot hq1

/-- Closed instance of C7: a run over a one-entry cache with nothing
new keeps the old entry, preserves its lookup value, and appends
nothing that collides with it. -/
theorem claim7_witness :
    (∀ e ∈ st4.cacheEntries, e ∈ ([("5", (100 : Int))] : JsonObj)) ∧
    (∀ k v, st4.cacheEntries.lookup k = some v →
      List.lookup k ([("5", (100 : Int))] : JsonObj) = some v) ∧
    (∃ newPart, ([("5", (100 : Int))] : JsonObj) = st4.cacheEntries ++ newPart ∧
      ∀ p ∈ newPart, ∀ q ∈ st4.cacheEntries, p.1 ≠ q.1) :=
  claim7_old_entries_preserved exWorld fs4 st4 [("5", 100)]
    [headerRow, ["100", "1", "1", "2", "3", "4", "5", "2", "6", "7", "8", "9", "10"]]
    (by decide) (by decide)

/-! ### Claim C10 -/

/-- C10: the written cache object — loaded string-keyed entries
followed by the run's int-keyed pairings as `json.dump` stringifies
them — has pairwise-distinct serialized keys, and re-loading it with
int-parsed keys on the next run yields exactly the old (id, value)
entries followed by the new pairings: no entry is lost, every value is
preserved, and no two entries collide on a serialized key. -/
theorem claim10_cache_key_round_trip (w : World) (fs : FS) (st : Loaded)
    (obj : JsonObj) (csv : CsvFile)
    (hload : loadState fs = some st)
    (hrun : update_data_for_season w fs =
      ([Effect.writeCache obj, Effect.writeCsv csv], none)) :
    (obj.map Prod.fst).Nodup ∧
    ∃ newPairs : List (Int × Int),
      obj = st.cacheEntries ++ newPairs.map (fun p => (intToString p.1, p.2)) ∧
      (∀ p ∈ newPairs, p.1 ∉ st.cachedIds) ∧
      nextLoadEntries obj =
        some (st.cachedIds.zip (st.cacheEntries.map Prod.snd) ++ newPairs) := by
  obtain ⟨st2, backRows, posted0, pairs, newRows, hload2, hb, hl, ha, hp, hobj, hcsv⟩ :=
    run_ok_picture hrun
  rw [hload] at hload2
  cases hload2
  obtain ⟨hce, hoc, hrows, hok2⟩ := loadState_some hload
  obtain ⟨hp1, hp2, hp3, hp4⟩ := processNew_ok hp
  have hnotin : ∀ k ∈ pairs.map Prod.fst, k ∉ st.cachedIds := by
    intro k hk
    rw [hp1, List.mem_filter] at hk
    simpa using hk.2
  have hn1 : (st.cacheEntries.map Prod.fst).Nodup := by
    rw [hce]
    exact pyDictOfList_keys_nodup _
  have hkeysnd : (pairs.map Prod.fst).Nodup := by
    rw [hp1]
    exact (List.nodup_dedup posted0).filter _
  have hnodup : (obj.map Prod.fst).Nodup := by
    rw [hobj, List.map_append, List.nodup_append]
    refine ⟨hn1, ?_, ?_⟩
    · rw [ser_keys]
      exact hkeysnd.map (fun a b hab => intToString_inj hab)
    · intro s hs1 hs2
      rw [ser_keys] at hs2
      obtain ⟨k, hk, rfl⟩ := List.mem_map.mp hs2
      exact ser_key_not_in_old hoc (hnotin k hk) hs1
  refine ⟨hnodup, pairs, hobj, fun p hp0 => hnotin p.1 (List.mem_map.mpr ⟨p, hp0, rfl⟩), ?_⟩
  unfold nextLoadEntries
  rw [hobj]
  rw [pyDictOfList_self _ (by rw [← hobj]; exact hnodup)]
  exact omap_append (omap_zip hoc) (omap_ser_pairs pairs)

/-- Closed instance of C10: the one-entry cache round-trips — nodup
serialized keys, old id 5 keeps value 100, nothing lost. -/
theorem claim10_witness :
    ((([("5", (100 : Int))] : JsonObj)).map Prod.fst).Nodup ∧
    ∃ newPairs : List (Int × Int),
      ([("5", (100 : Int))] : JsonObj) =
        st4.cacheEntries ++ newPairs.map (fun p => (intToString p.1, p.2)) ∧
      (∀ p ∈ newPairs, p.1 ∉ st4.cachedIds) ∧
      nextLoadEntries ([("5", (100 : Int))] : JsonObj) =
        some (st4.cachedIds.zip (st4.cacheEntries.map Prod.snd) ++ newPairs) :=
  claim10_cache_key_round_trip exWorld fs4 st4 [("5", 100)]
    [headerRow, ["100", "1", "1", "2", "3", "4", "5", "2", "6", "7", "8", "9", "10"]]
    (by decide) (by decide)

end Dota

namespace Dota

/-! ### Claim C2 -/

/-- C2: starting from a table with pairwise-distinct non-zero
`stats_match_id` values and a cache consistent with it (every non-zero
cached stats id already has a row), and assuming the detail pages never
map two distinct ld2l ids to the same non-zero OpenDota id and the
stats source serves the match with the requested id, the table written
at the end of a completed run still has pairwise-distinct ids and no
row for the sentinel 0. -/
theorem claim2_row_uniqueness (w : World) (fs : FS) (st : Loaded)
    (obj : JsonObj) (csv : CsvFile)
    (hload : loadState fs = some st)
    (hnd : st.knownIds.Nodup) (h0 : (0 : Int) ∉ st.knownIds)
    (hcons : ∀ v ∈ st.cacheEntries.map Prod.snd, v = 0 ∨ v ∈ st.knownIds)
    (hinj : mapperInj w) (hecho : statsEcho w)
    (hrun : update_data_for_season w fs =
      ([Effect.writeCache obj, Effect.writeCsv csv], none)) :
    ∃ ids, omap rowKeyInt (csv.drop 1) = some ids ∧ ids.Nodup ∧ (0 : Int) ∉ ids := by
  obtain ⟨st2, backRows, posted0, pairs, newRows, hload2, hb, hl, ha, hp, hobj, hcsv⟩ :=
    run_ok_picture hrun
  rw [hload] at hload2
  cases hload2
  obtain ⟨hce, hoc, hrows, hok2⟩ := loadState_some hload
  have hbid : backfillIds st = [] := by
    unfold backfillIds
    rw [List.filter_eq_nil_iff]
    intro v hv
    rcases hcons v (List.mem_dedup.mp hv) with h1 | h1
    · simp [h1]
    · simp [h1]
  rw [hbid] at hb
  injection hb with hb2
  subst hb2
  obtain ⟨hA, hBnodup⟩ :=
    processNew_rows_nodup hecho hinj ((List.nodup_dedup posted0).filter _) hp
  refine ⟨st.knownIds ++ newRows.map Row.match_id, ?_, ?_, ?_⟩
  · rw [hcsv]
    simp only [List.map_nil, List.append_nil, List.drop_succ_cons, List.drop_zero]
    exact omap_append hok2 (omap_rowKey_rows newRows)
  · rw [List.nodup_append]
    refine ⟨hnd, hBnodup, ?_⟩
    intro a ha2 hb2
    obtain ⟨r, hr, rfl⟩ := List.mem_map.mp hb2
    exact (hA r hr).2.2 ha2
  · intro hmem
    rcases List.mem_append.mp hmem with hmem | hmem
    · exact h0 hmem
    · obtain ⟨r, hr, hr0⟩ := List.mem_map.mp hmem
      exact (hA r hr).2.1 hr0

/-- Closed instance of C2: a first run over an empty state discovers
one match and writes a table with distinct non-zero ids. -/
theorem claim2_witness :
    ∃ ids, omap rowKeyInt
        (([headerRow,
           ["100", "1", "1", "2", "3", "4", "5", "2", "6", "7", "8", "9", "10"]] :
          CsvFile).drop 1) = some ids ∧ ids.Nodup ∧ (0 : Int) ∉ ids :=
  claim2_row_uniqueness exWorld emptyFS ⟨[], [], [], []⟩ [("5", 100)]
    [headerRow, ["100", "1", "1", "2", "3", "4", "5", "2", "6", "7", "8", "9", "10"]]
    (by decide) (by decide) (by decide) (by decide)
    (by
      intro i j oi h1 h2 h0
      simp only [exWorld] at h1 h2
      injection h1 with h1
      injection h2 with h2
      omega)
    (by
      intro id m h
      simp only [exWorld] at h
      injection h with h2
      rw [← h2])
    (by decide)

/-! ### Claim C4 -/

/-- C4 counterexample: a run that finds no new completed match and
needs no backfill still performs both durable writes — the effect list
is non-empty — refuting "neither file is written". -/
theorem claim4_counterexample :
    backfillIds st4 = [] ∧
    w4.listPage = some [5] ∧
    ([5] : List Int).dedup.filter (fun i => !decide (i ∈ st4.cachedIds)) = [] ∧
    (update_data_for_season w4 fs4).2 = none ∧
    (update_data_for_season w4 fs4).1 ≠ [] := by
  decide

/-- C4 (amended): a run with no new matches and no backfill terminates
normally and rewrites both files; when the prior files are in the form
the pipeline itself writes (cache present with distinct keys, table
present with the canonical header), the rewritten content equals the
prior content, so the durable state is unchanged — but the writes do
occur. -/
theorem claim4_no_new_rewrites_unchanged (w : World) (fs : FS) (st : Loaded)
    (co : JsonObj) (rest : List (List String)) (l : List Int)
    (hcache : fs.cacheFile = some co)
    (hnodup : (co.map Prod.fst).Nodup)
    (hcsv : fs.csvFile = some (headerRow :: rest))
    (hload : loadState fs = some st)
    (hback : backfillIds st = [])
    (hlist : w.listPage = some l)
    (hassert : ¬ ∃ i ∈ st.cachedIds, i ∉ l.dedup)
    (hnonew : l.dedup.filter (fun i => !decide (i ∈ st.cachedIds)) = []) :
    update_data_for_season w fs =
      ([Effect.writeCache co, Effect.writeCsv (headerRow :: rest)], none) ∧
    finalFS w fs = fs := by
  obtain ⟨hce, hoc, hrows, hok2⟩ := loadState_some hload
  have hceco : st.cacheEntries = co := by
    rw [hce, hcache]
    exact pyDictOfList_self co hnodup
  have hstrows : st.rows = rest := by
    rw [hrows]
    unfold csvRowsOf
    rw [hcsv]
    rfl
  have hrc : runCore w st = .ok (st.cacheEntries, headerRow :: st.rows) :=
    runCore_mk_nonew hback hlist hassert hnonew
  rw [hceco, hstrows] at hrc
  have hupd := update_mk hload hrc
  refine ⟨hupd, ?_⟩
  rw [finalFS_of_ok hupd]
  cases fs with
  | mk c v =>
    have h1 : c = some co := hcache
    have h2 : v = some (headerRow :: rest) := hcsv
    rw [h1, h2]

/-- Closed instance of the amended C4: the no-new-data run over a
consistent one-match state rewrites both files with identical
content. -/
theorem claim4_witness :
    update_data_for_season w4 fs4 =
      ([Effect.writeCache [("5", 100)],
        Effect.writeCsv (headerRow ::
          [["100", "1", "1", "2", "3", "4", "5", "2", "6", "7", "8", "9", "10"]])], none) ∧
    finalFS w4 fs4 = fs4 :=
  claim4_no_new_rewrites_unchanged w4 fs4 st4 [("5", 100)]
    [["100", "1", "1", "2", "3", "4", "5", "2", "6", "7", "8", "9", "10"]] [5]
    (by decide) (by decide) (by decide) (by decide) (by decide) (by decide)
    (by decide) (by decide)

end Dota

namespace Dota

/-! ### Claim C3 -/

theorem ser_values (pairs : List (Int × Int)) :
    (pairs.map (fun p => (intToString p.1, p.2))).map Prod.snd = pairs.map Prod.snd := by
  induction pairs with
  | nil => rfl
  | cons p ps ih => simp only [List.map_cons, ih]

theorem merged_keys_nodup {entries : JsonObj} {cachedIds : List Int}
    {pairs : List (Int × Int)}
    (hoc : omap (fun p => pyInt p.1) entries = some cachedIds)
    (hn1 : (entries.map Prod.fst).Nodup)
    (hkeysnd : (pairs.map Prod.fst).Nodup)
    (hnotin : ∀ k ∈ pairs.map Prod.fst, k ∉ cachedIds) :
    ((entries ++ pairs.map (fun p => (intToString p.1, p.2))).map Prod.fst).Nodup := by
  rw [List.map_append, List.nodup_append]
  refine ⟨hn1, ?_, ?_⟩
  · rw [ser_keys]
    exact hkeysnd.map (fun a b hab => intToString_inj hab)
  · intro s hs1 hs2
    rw [ser_keys] at hs2
    obtain ⟨k, hk, rfl⟩ := List.mem_map.mp hs2
    exact ser_key_not_in_old hoc (hnotin k hk) hs1

/-- C3: running the engine a second time against unchanged upstream
sources (the same `World`, whose stats source serves each id its own
record) completes normally and leaves both persisted files with exactly
the content the first completed run wrote. -/
theorem claim3_second_run_identical (w : World) (fs : FS)
    (hecho : statsEcho w)
    (hok : (update_data_for_season w fs).2 = none) :
    (update_data_for_season w (finalFS w fs)).2 = none ∧
    finalFS w (finalFS w fs) = finalFS w fs := by
  rcases update_shape w fs with ⟨e, hu⟩ | ⟨obj, csv, hu⟩
  · rw [hu] at hok
    simp at hok
  · obtain ⟨st, backRows, posted0, pairs, newRows, hload, hb, hl, ha, hp, hobj, hcsv⟩ :=
      run_ok_picture hu
    obtain ⟨hce, hoc, hrows, hok2⟩ := loadState_some hload
    obtain ⟨hp1, hp2, hp3, hp4⟩ := processNew_ok hp
    have hfs1 : finalFS w fs = ⟨some obj, some csv⟩ := finalFS_of_ok hu
    have hnotin : ∀ k ∈ pairs.map Prod.fst, k ∉ st.cachedIds := by
      intro k hk
      rw [hp1, List.mem_filter] at hk
      simpa using hk.2
    have hn1 : (st.cacheEntries.map Prod.fst).Nodup := by
      rw [hce]
      exact pyDictOfList_keys_nodup _
    have hkeysnd : (pairs.map Prod.fst).Nodup := by
      rw [hp1]
      exact (List.nodup_dedup posted0).filter _
    have hnodupobj : (obj.map Prod.fst).Nodup := by
      rw [hobj]
      exact merged_keys_nodup hoc hn1 hkeysnd hnotin
    have hself : pyDictOfList obj = obj := pyDictOfList_self obj hnodupobj
    have hcache2 : omap (fun p => pyInt p.1) (pyDictOfList obj) =
        some (st.cachedIds ++ pairs.map Prod.fst) := by
      rw [hself, hobj]
      exact omap_append hoc (omap_pyInt_ser pairs)
    have hcsvrows : csvRowsOf ⟨some obj, some csv⟩ =
        st.rows ++ backRows.map rowToStrings ++ newRows.map rowToStrings := by
      show csv.drop 1 = _
      rw [hcsv]
      rfl
    have hknown2 : omap rowKeyInt
        (st.rows ++ backRows.map rowToStrings ++ newRows.map rowToStrings) =
        some (st.knownIds ++ backRows.map Row.match_id ++ newRows.map Row.match_id) :=
      omap_append (omap_append hok2 (omap_rowKey_rows backRows)) (omap_rowKey_rows newRows)
    have hload2 : loadState ⟨some obj, some csv⟩ =
        some ⟨obj, st.cachedIds ++ pairs.map Prod.fst,
          st.rows ++ backRows.map rowToStrings ++ newRows.map rowToStrings,
          st.knownIds ++ backRows.map Row.match_id ++ newRows.map Row.match_id⟩ := by
      have h2 : omap rowKeyInt (csvRowsOf ⟨some obj, some csv⟩) =
          some (st.knownIds ++ backRows.map Row.match_id ++ newRows.map Row.match_id) := by
        rw [hcsvrows]
        exact hknown2
      have hmk := @loadState_mk ⟨some obj, some csv⟩ _ _ hcache2 h2
      have hgetd : (({ cacheFile := some obj, csvFile := some csv } : FS).cacheFile.getD []) =
          obj := rfl
      rw [hgetd, hself, hcsvrows] at hmk
      exact hmk
    have hback2 : backfillIds ⟨obj, st.cachedIds ++ pairs.map Prod.fst,
        st.rows ++ backRows.map rowToStrings ++ newRows.map rowToStrings,
        st.knownIds ++ backRows.map Row.match_id ++ newRows.map Row.match_id⟩ = [] := by
      unfold backfillIds
      rw [List.filter_eq_nil_iff]
      intro v hv hcond
      rw [Bool.and_eq_true, Bool.not_eq_true', Bool.not_eq_true',
        decide_eq_false_iff_not, decide_eq_false_iff_not] at hcond
      obtain ⟨hvnot, hv0⟩ := hcond
      apply hvnot
      have hvmem : v ∈ st.cacheEntries.map Prod.snd ∨ v ∈ pairs.map Prod.snd := by
        have := List.mem_dedup.mp hv
        rw [hobj, List.map_append, ser_values] at this
        exact List.mem_append.mp this
      rcases hvmem with hvold | hvnew
      · by_cases hin : v ∈ st.knownIds
        · exact List.mem_append_left _ (List.mem_append_left _ hin)
        · have hvb : v ∈ backfillIds st := by
            unfold backfillIds
            rw [List.mem_filter]
            refine ⟨List.mem_dedup.mpr hvold, ?_⟩
            rw [Bool.and_eq_true, Bool.not_eq_true', Bool.not_eq_true',
              decide_eq_false_iff_not, decide_eq_false_iff_not]
            exact ⟨hin, hv0⟩
          rw [← backfill_map_id hecho hb] at hvb
          exact List.mem_append_left _ (List.mem_append_right _ hvb)
      · obtain ⟨p, hpmem, rfl⟩ := List.mem_map.mp hvnew
        rcases hp4 p hpmem with h1 | h1 | ⟨r, hr, hfr⟩
        · exact absurd h1 hv0
        · exact List.mem_append_left _ (List.mem_append_left _ h1)
        · apply List.mem_append_right
          exact List.mem_map.mpr ⟨r, hr, fetchRow_echo hecho hfr⟩
    have hnonew2 : posted0.dedup.filter
        (fun i => !decide (i ∈ st.cachedIds ++ pairs.map Prod.fst)) = [] := by
      rw [List.filter_eq_nil_iff]
      intro i hi hcond
      rw [Bool.not_eq_true', decide_eq_false_iff_not] at hcond
      apply hcond
      by_cases hic : i ∈ st.cachedIds
      · exact List.mem_append_left _ hic
      · apply List.mem_append_right
        rw [hp1, List.mem_filter]
        exact ⟨hi, by simpa using hic⟩
    have hassert2 : ¬ ∃ i ∈ st.cachedIds ++ pairs.map Prod.fst, i ∉ posted0.dedup := by
      rintro ⟨i, hi, hni⟩
      rcases List.mem_append.mp hi with hi | hi
      · exact hni (ha i hi)
      · rw [hp1, List.mem_filter] at hi
        exact hni hi.1
    have hrc2 := runCore_mk_nonew hback2 hl hassert2 hnonew2
    rw [← hcsv] at hrc2
    have hupd2 := update_mk hload2 hrc2
    rw [hfs1]
    exact ⟨by rw [hupd2], by rw [finalFS_of_ok hupd2]⟩

/-- Closed instance of C3: after the first run over the empty state the
second run against the same world completes and changes nothing. -/
theorem claim3_witness :
    (update_data_for_season exWorld (finalFS exWorld emptyFS)).2 = none ∧
    finalFS exWorld (finalFS exWorld emptyFS) = finalFS exWorld emptyFS :=
  claim3_second_run_identical exWorld emptyFS
    (by
      intro id m h
      simp only [exWorld] at h
      injection h with h2
      rw [← h2])
    (by decide)

end Dota
